import Mathlib

/-!
Shallow embedding of the freelance-marketplace ledger service (`src/app.js`,
the variant the specification's line references point at).  Profiles,
contracts and jobs are rows of three tables; each HTTP route becomes a pure
function from a database state (plus request arguments) to a result kind and
a successor database state.  Money and timestamps are rationals; an unpaid
job is stored with `paid = false` (the SQL row holds NULL, which all the
queries of the source treat interchangeably with false) and a null
`paymentDate` is `Option.none`.  A JavaScript crash (a null-dereference, for
example when a referenced profile row is missing) is modelled as `none` of an
`Option` result; since the writes sit inside a transaction the crash leaves
the database unchanged.
-/

namespace DeelTask

/-- A `Profile` row: id, fullName, profession, balance. -/
structure Profile where
  id : Nat
  fullName : String
  profession : String
  balance : ℚ
deriving Repr, DecidableEq

/-- A `Contract` row: id, ClientId, ContractorId, status
(`"new" | "in_progress" | "terminated"`). -/
structure Contract where
  id : Nat
  clientId : Nat
  contractorId : Nat
  status : String
deriving Repr, DecidableEq

/-- A `Job` row: id, ContractId, price, paid, paymentDate. -/
structure Job where
  id : Nat
  contractId : Nat
  price : ℚ
  paid : Bool
  paymentDate : Option ℚ
deriving Repr, DecidableEq

/-- The database: the three tables the routes query. -/
structure DB where
  profiles : List Profile
  contracts : List Contract
  jobs : List Job
deriving Repr, DecidableEq

/-- Outcome kinds of `POST /jobs/:job_id/pay`. -/
inductive PayResult
  | NotFound
  | AlreadyPaid
  | InsufficientFunds
  | Paid
deriving Repr, DecidableEq

/-- Outcome kinds of `POST /balances/deposit/:userId`. -/
inductive DepositResult
  | NotFound
  | CapExceeded
  | Deposited
deriving Repr, DecidableEq

/-- Embeds `Profile.findOne({where: {id}})`. -/
def findProfile (db : DB) (pid : Nat) : Option Profile :=
  db.profiles.find? (fun p => p.id == pid)

/-- The contract-side condition of the join in `POST /jobs/:job_id/pay`:
`Contract.id = Job.ContractId`, `status != 'terminated'`,
`ClientId = req.profile.id`. -/
def payContractMatches (callerId : Nat) (j : Job) (c : Contract) : Bool :=
  c.id == j.contractId && !(c.status == "terminated") && c.clientId == callerId

/-- Embeds `Job.findOne({include: Contract(where ...), where: {id: job_id}})`:
the first job row with the requested id that joins a contract row passing the
authorization filter, together with that contract. -/
def payLookup (db : DB) (callerId jobId : Nat) : Option (Job × Contract) :=
  db.jobs.findSome? (fun j =>
    if j.id == jobId then
      (db.contracts.find? (payContractMatches callerId j)).map (fun c => (j, c))
    else none)

/-- Embeds `Profile.increment({balance: delta}, {where: {id: pid}})`. -/
def incrementBalance (profiles : List Profile) (pid : Nat) (delta : ℚ) :
    List Profile :=
  profiles.map (fun p =>
    if p.id == pid then { p with balance := p.balance + delta } else p)

/-- Embeds `Job.update({paid: true, paymentDate: Date.now()}, {where: {id: jid}})`. -/
def markJobPaid (jobs : List Job) (jid : Nat) (now : ℚ) : List Job :=
  jobs.map (fun j =>
    if j.id == jid then { j with paid := true, paymentDate := some now } else j)

/-- Embeds `POST /jobs/:job_id/pay`.  Joins the job with its (non-terminated,
caller-owned) contract — a miss is the route's 404.  Loads both profiles,
returns 200 early if the job is already paid, 402 if the price exceeds the
client's balance, and otherwise transfers the price and marks the job paid in
one transaction.  `none` models a crash on a missing profile row (the
transaction, if started, rolls back). -/
def payJob (db : DB) (now : ℚ) (callerId jobId : Nat) :
    Option (PayResult × DB) :=
  match payLookup db callerId jobId with
  | none => some (.NotFound, db)
  | some (j, c) =>
    let client? := findProfile db c.clientId
    let contractor? := findProfile db c.contractorId
    if j.paid then some (.AlreadyPaid, db)
    else
      match client? with
      | none => none
      | some client =>
        if j.price > client.balance then some (.InsufficientFunds, db)
        else
          match contractor? with
          | none => none
          | some contractor =>
            some (.Paid,
              { db with
                profiles :=
                  incrementBalance
                    (incrementBalance db.profiles client.id (-j.price))
                    contractor.id j.price,
                jobs := markJobPaid db.jobs j.id now })

/-- HTTP status each pay outcome is reported with; every branch of the route
ends the response without a body (`res.status(..).end()`). -/
def payHttpStatus : PayResult → Nat
  | .NotFound => 404
  | .AlreadyPaid => 200
  | .InsufficientFunds => 402
  | .Paid => 200

/-- HTTP response (status, body) of each pay outcome; every branch of the
route responds with `res.status(s).end()`, an empty body. -/
def payHttpResponse (r : PayResult) : Nat × Option String :=
  (payHttpStatus r, none)

/-- Contract-side condition of the debt join in
`POST /balances/deposit/:userId`: non-terminated contract of this client
owning the job. -/
def debtContractMatches (cid : Nat) (j : Job) (c : Contract) : Bool :=
  c.id == j.contractId && !(c.status == "terminated") && c.clientId == cid

/-- Computes `sum(price)` over unpaid jobs joined with the client's non-terminated
contracts.  A job row contributes once per joining contract row, as the SQL
join does; the empty sum is 0, matching `null * 1.25 === 0` in the source's
cap comparison. -/
def debtOf (db : DB) (cid : Nat) : ℚ :=
  (db.jobs.map (fun j =>
    if j.paid then 0
    else ((db.contracts.filter (debtContractMatches cid j)).map
      (fun _ => j.price)).sum)).sum

/-- Embeds `POST /balances/deposit/:userId`: 404 on an unknown profile, 400 when the
amount exceeds 1.25 times the client's unpaid debt, otherwise increment the
balance. -/
def deposit (db : DB) (userId : Nat) (amount : ℚ) : DepositResult × DB :=
  match findProfile db userId with
  | none => (.NotFound, db)
  | some client =>
    if amount > debtOf db client.id * (5 / 4 : ℚ) then (.CapExceeded, db)
    else
      (.Deposited,
        { db with profiles := incrementBalance db.profiles client.id amount })

/-- Contract-side condition of `GET /jobs/unpaid`:
`status = 'in_progress'` (not merely non-terminated) and the profile on
either side. -/
def unpaidContractMatches (pid : Nat) (j : Job) (c : Contract) : Bool :=
  c.id == j.contractId && c.status == "in_progress" &&
    (c.contractorId == pid || c.clientId == pid)

/-- Embeds `GET /jobs/unpaid`: unpaid jobs joined with an `in_progress` contract
involving the profile. -/
def findUnpaidJobsForProfile (db : DB) (pid : Nat) : List Job :=
  db.jobs.filter (fun j =>
    !j.paid && db.contracts.any (unpaidContractMatches pid j))

/-- The `paymentDate` window of both admin routes:
`{[Op.gt]: start, [Op.lt]: end}` — strictly inside the open interval, and a
NULL `paymentDate` never matches. -/
def jobInWindow (s e : ℚ) (j : Job) : Bool :=
  match j.paymentDate with
  | none => false
  | some d => decide (s < d ∧ d < e)

/-- The job rows both admin aggregations range over. -/
def windowJobs (db : DB) (s e : ℚ) : List Job :=
  db.jobs.filter (jobInWindow s e)

/-- Resolves `Contract.Contractor.profession` of a job row through the two left
joins; `none` when the contract or contractor row is missing. -/
def professionKey (db : DB) (j : Job) : Option String :=
  (db.contracts.find? (fun c => c.id == j.contractId)).bind
    (fun c => (db.profiles.find? (fun p => p.id == c.contractorId)).map
      (fun p => p.profession))

/-- Computes `sum(price)` of the in-window jobs of one profession group. -/
def professionTotal (db : DB) (s e : ℚ) (k : Option String) : ℚ :=
  (((windowJobs db s e).filter (fun j => professionKey db j == k)).map
    Job.price).sum

/-- The distinct `group: 'Contract.Contractor.profession'` keys present. -/
def professionKeys (db : DB) (s e : ℚ) : List (Option String) :=
  ((windowJobs db s e).map (professionKey db)).dedup

/-- Embeds `GET /admin/best-profession`: the group key whose summed price is
maximal (`order total DESC`, first row), `none` — the route's 404 — when no
job row matches the window. -/
def bestProfession (db : DB) (s e : ℚ) : Option (Option String) :=
  (professionKeys db s e).argmax (professionTotal db s e)

/-- Resolves `Contract.Client.id` of a job row through the join. -/
def clientKey (db : DB) (j : Job) : Option Nat :=
  (db.contracts.find? (fun c => c.id == j.contractId)).map
    (fun c => c.clientId)

/-- Computes `sum(price)` of the in-window jobs of one client group. -/
def clientTotal (db : DB) (s e : ℚ) (k : Option Nat) : ℚ :=
  (((windowJobs db s e).filter (fun j => clientKey db j == k)).map
    Job.price).sum

/-- The distinct `group: 'Contract.Client.id'` keys present. -/
def clientKeys (db : DB) (s e : ℚ) : List (Option Nat) :=
  ((windowJobs db s e).map (clientKey db)).dedup

/-- One entry of the `GET /admin/best-clients` response:
`{id, fullName, paid}`. -/
structure ClientExpense where
  id : Option Nat
  fullName : Option String
  paid : ℚ
deriving Repr, DecidableEq

/-- Resolves `Contract.Client.fullName` for a group key. -/
def clientName (db : DB) (k : Option Nat) : Option String :=
  k.bind (fun i => (db.profiles.find? (fun p => p.id == i)).map
    (fun p => p.fullName))

/-- Embeds `GET /admin/best-clients`: client groups ordered by summed price
descending, truncated to `req.query.limit || 2`. -/
def bestClients (db : DB) (s e : ℚ) (limit : Option Nat) :
    List ClientExpense :=
  (((clientKeys db s e).mergeSort (fun a b =>
      decide (clientTotal db s e b ≤ clientTotal db s e a))).take
    (limit.getD 2)).map
    (fun k => ⟨k, clientName db k, clientTotal db s e k⟩)

/-- One step of an arbitrary request sequence against `POST /jobs/:job_id/pay`:
apply the route and keep the successor state (a crash leaves the prior
state, the transaction having rolled back). -/
def payStep (db : DB) (step : ℚ × Nat × Nat) : DB :=
  match payJob db step.1 step.2.1 step.2.2 with
  | some (_, db') => db'
  | none => db

/-- Sum of every profile's balance. -/
def totalBalance (db : DB) : ℚ :=
  (db.profiles.map Profile.balance).sum

/-- Rewrite every job's `paid` flag while keeping all other columns; used to
state that the admin aggregations never consult `paid`. -/
def setPaidFlags (db : DB) (f : Job → Bool) : DB :=
  { db with jobs := db.jobs.map (fun j => { j with paid := f j }) }

/-- Stated from the specification's words, for comparison with the source's
`professionTotal`: the summed price of the **paid** jobs with `paymentDate`
in the window whose contract's contractor has the given profession. -/
def specPaidProfessionTotal (db : DB) (s e : ℚ) (k : Option String) : ℚ :=
  ((db.jobs.filter (fun j =>
    j.paid && jobInWindow s e j && (professionKey db j == k))).map
      Job.price).sum

/-- A client with balance 100 owing 40 on one in-progress job; exercises a
successful payment. -/
def dbC1 : DB :=
  { profiles := [⟨1, "Alice", "client", 100⟩, ⟨2, "Bob", "programmer", 10⟩],
    contracts := [⟨1, 1, 2, "in_progress"⟩],
    jobs := [⟨1, 1, 40, false, none⟩] }

/-- The state after paying `dbC1`'s job at time 99. -/
def dbC1x : DB :=
  { profiles := [⟨1, "Alice", "client", 60⟩, ⟨2, "Bob", "programmer", 50⟩],
    contracts := [⟨1, 1, 2, "in_progress"⟩],
    jobs := [⟨1, 1, 40, true, some 99⟩] }

/-- A client with one unpaid job of price 100 (debt 100, cap 125). -/
def dbC2 : DB :=
  { profiles := [⟨1, "Ann", "client", 100⟩, ⟨2, "Joe", "welder", 0⟩],
    contracts := [⟨1, 1, 2, "in_progress"⟩],
    jobs := [⟨1, 1, 100, false, none⟩] }

/-- A payable job used to exercise the pay-then-retry sequence. -/
def dbC3 : DB :=
  { profiles := [⟨1, "Cara", "client", 80⟩, ⟨2, "Dan", "mason", 5⟩],
    contracts := [⟨1, 1, 2, "in_progress"⟩],
    jobs := [⟨1, 1, 30, false, none⟩] }

/-- The state after paying `dbC3`'s job at time 99. -/
def dbC3x : DB :=
  { profiles := [⟨1, "Cara", "client", 50⟩, ⟨2, "Dan", "mason", 35⟩],
    contracts := [⟨1, 1, 2, "in_progress"⟩],
    jobs := [⟨1, 1, 30, true, some 99⟩] }

/-- A job whose price exactly equals the client's balance. -/
def dbC4 : DB :=
  { profiles := [⟨1, "Eve", "client", 70⟩, ⟨2, "Fay", "tiler", 0⟩],
    contracts := [⟨1, 1, 2, "in_progress"⟩],
    jobs := [⟨1, 1, 70, false, none⟩] }

/-- An existing unpaid job under a terminated contract, with the client's
balance amply sufficient. -/
def dbC5 : DB :=
  { profiles := [⟨1, "Gus", "client", 1000⟩, ⟨2, "Hal", "roofer", 0⟩],
    contracts := [⟨1, 1, 2, "terminated"⟩],
    jobs := [⟨1, 1, 10, false, none⟩] }

/-- An unpaid job under a contract with status `"new"` involving profile 1
as the client. -/
def dbC6 : DB :=
  { profiles := [⟨1, "Ida", "client", 0⟩, ⟨2, "Jon", "glazier", 0⟩],
    contracts := [⟨1, 1, 2, "new"⟩],
    jobs := [⟨1, 1, 50, false, none⟩] }

/-- Two paid jobs in the window: the programmer earned 300, the designer
250. -/
def dbC7 : DB :=
  { profiles := [⟨1, "Kay", "client", 0⟩, ⟨2, "Lee", "programmer", 0⟩,
      ⟨3, "Mia", "designer", 0⟩],
    contracts := [⟨1, 1, 2, "in_progress"⟩, ⟨2, 1, 3, "in_progress"⟩],
    jobs := [⟨1, 1, 300, true, some 10⟩, ⟨2, 2, 250, true, some 11⟩] }

/-- A single paid job whose `paymentDate` is exactly 5, probing the window
boundary. -/
def dbC8 : DB :=
  { profiles := [⟨1, "Ned", "client", 0⟩, ⟨2, "Ola", "programmer", 0⟩],
    contracts := [⟨1, 1, 2, "in_progress"⟩],
    jobs := [⟨1, 1, 40, true, some 5⟩] }

/-- A payable job used to compare the responses of a payment and of its
retry. -/
def dbC10 : DB :=
  { profiles := [⟨1, "Pia", "client", 90⟩, ⟨2, "Quin", "smith", 0⟩],
    contracts := [⟨1, 1, 2, "in_progress"⟩],
    jobs := [⟨1, 1, 25, false, none⟩] }

/-- The state after paying `dbC10`'s job at time 7. -/
def dbC10x : DB :=
  { profiles := [⟨1, "Pia", "client", 65⟩, ⟨2, "Quin", "smith", 25⟩],
    contracts := [⟨1, 1, 2, "in_progress"⟩],
    jobs := [⟨1, 1, 25, true, some 7⟩] }

/-! Helper lemmas about the store primitives. -/

theorem findSome?_map_comp {α β γ : Type _} (F : α → Option β) (h : β → γ) :
    ∀ l : List α, (l.findSome? fun x => (F x).map h) = (l.findSome? F).map h
  | [] => rfl
  | a :: as => by
    rw [List.findSome?_cons, List.findSome?_cons]
    cases F a <;> simp [findSome?_map_comp F h as]

theorem incrementBalance_ids (l : List Profile) (pid : Nat) (d : ℚ) :
    (incrementBalance l pid d).map Profile.id = l.map Profile.id := by
  unfold incrementBalance
  rw [List.map_map]
  apply List.map_congr_left
  intro p _
  simp only [Function.comp]
  split <;> rfl

theorem incrementBalance_eq_self (l : List Profile) (pid : Nat) (d : ℚ)
    (h : ∀ p ∈ l, p.id ≠ pid) : incrementBalance l pid d = l := by
  unfold incrementBalance
  conv_rhs => rw [← List.map_id l]
  apply List.map_congr_left
  intro p hp
  simp [h p hp]

theorem incrementBalance_cons (q : Profile) (qs : List Profile) (pid : Nat)
    (d : ℚ) :
    incrementBalance (q :: qs) pid d
      = (if q.id == pid then { q with balance := q.balance + d } else q)
        :: incrementBalance qs pid d := rfl

theorem incrementBalance_sum (pid : Nat) (d : ℚ) (p : Profile)
    (hid : p.id = pid) :
    ∀ l : List Profile, (l.map Profile.id).Nodup → p ∈ l →
      ((incrementBalance l pid d).map Profile.balance).sum
        = (l.map Profile.balance).sum + d
  | [], _, hp => absurd hp (List.not_mem_nil p)
  | q :: qs, hnd, hp => by
    rw [List.map_cons, List.nodup_cons] at hnd
    rcases List.mem_cons.mp hp with rfl | hmem
    · have htail : ∀ r ∈ qs, r.id ≠ pid := by
        intro r hr hrid
        have hm : r.id ∈ List.map Profile.id qs :=
          List.mem_map_of_mem Profile.id hr
        rw [hrid, ← hid] at hm
        exact hnd.1 hm
      rw [incrementBalance_cons, incrementBalance_eq_self qs pid d htail,
        if_pos (beq_iff_eq.mpr hid)]
      simp only [List.map_cons, List.sum_cons]
      ring
    · have hq : ¬(q.id == pid) = true := by
        intro hbeq
        have hm : p.id ∈ List.map Profile.id qs :=
          List.mem_map_of_mem Profile.id hmem
        rw [hid, ← beq_iff_eq.mp hbeq] at hm
        exact hnd.1 hm
      rw [incrementBalance_cons, if_neg hq]
      simp only [List.map_cons, List.sum_cons,
        incrementBalance_sum pid d p hid qs hnd.2 hmem]
      ring

theorem find?_incrementBalance (l : List Profile) (pid : Nat) (d : ℚ)
    (qid : Nat) :
    (incrementBalance l pid d).find? (fun p => p.id == qid)
      = (l.find? (fun p => p.id == qid)).map
          (fun p => if p.id == pid then { p with balance := p.balance + d }
            else p) := by
  unfold incrementBalance
  rw [List.find?_map]
  have hpred : ((fun p : Profile => p.id == qid) ∘ fun p =>
      if p.id == pid then { p with balance := p.balance + d } else p)
      = (fun p : Profile => p.id == qid) := by
    funext p
    simp only [Function.comp]
    split <;> rfl
  rw [hpred]

theorem markJobPaid_spec (jobs : List Job) (jid : Nat) (now : ℚ) :
    ∀ j' ∈ markJobPaid jobs jid now, j'.id = jid →
      j'.paid = true ∧ j'.paymentDate = some now := by
  intro j' hj' hid
  unfold markJobPaid at hj'
  rcases List.mem_map.mp hj' with ⟨x, _, rfl⟩
  by_cases h : x.id == jid
  · simp [h]
  · rw [if_neg h] at hid ⊢
    exact absurd (beq_iff_eq.mpr hid) h

theorem incrementBalance_mem_id (l : List Profile) (pid : Nat) (d : ℚ)
    (tid : Nat) (p : Profile) (hp : p ∈ l) (hid : p.id = tid) :
    ∃ q ∈ incrementBalance l pid d, q.id = tid := by
  refine ⟨(fun p => if p.id == pid then { p with balance := p.balance + d }
    else p) p, List.mem_map_of_mem _ hp, ?_⟩
  dsimp only
  split <;> exact hid

theorem findProfile_some_id (db : DB) (pid : Nat) (p : Profile)
    (h : findProfile db pid = some p) : p.id = pid := by
  unfold findProfile at h
  simpa using List.find?_some h

theorem payLookup_some (db : DB) (caller jid : Nat) (j : Job) (c : Contract)
    (h : payLookup db caller jid = some (j, c)) :
    j.id = jid ∧ payContractMatches caller j c = true ∧ j ∈ db.jobs ∧
      c ∈ db.contracts := by
  unfold payLookup at h
  obtain ⟨a, ha, hfa⟩ := List.exists_of_findSome?_eq_some h
  by_cases hid : (a.id == jid) = true
  · rw [if_pos hid] at hfa
    rcases hfind : db.contracts.find? (payContractMatches caller a)
      with _ | c' <;> rw [hfind] at hfa
    · cases hfa
    · simp only [Option.map_some', Option.some.injEq, Prod.mk.injEq] at hfa
      obtain ⟨rfl, rfl⟩ := hfa
      exact ⟨beq_iff_eq.mp hid, List.find?_some hfind, ha,
        List.mem_of_find?_eq_some hfind⟩
  · rw [if_neg hid] at hfa
    cases hfa

theorem payJob_notFound (db : DB) (now : ℚ) (caller jid : Nat)
    (h : payLookup db caller jid = none) :
    payJob db now caller jid = some (.NotFound, db) := by
  unfold payJob
  rw [h]

theorem payJob_alreadyPaid (db : DB) (now : ℚ) (caller jid : Nat) (j : Job)
    (c : Contract) (hlk : payLookup db caller jid = some (j, c))
    (hp : j.paid = true) :
    payJob db now caller jid = some (.AlreadyPaid, db) := by
  unfold payJob
  rw [hlk]
  dsimp only
  rw [if_pos hp]

theorem payJob_paid_eq (db : DB) (now : ℚ) (caller jid : Nat) (j : Job)
    (c : Contract) (client contractor : Profile)
    (hlk : payLookup db caller jid = some (j, c)) (hp : j.paid = false)
    (hcl : findProfile db c.clientId = some client)
    (hco : findProfile db c.contractorId = some contractor)
    (hle : j.price ≤ client.balance) :
    payJob db now caller jid = some (.Paid,
      { db with
        profiles := incrementBalance
          (incrementBalance db.profiles client.id (-j.price))
          contractor.id j.price,
        jobs := markJobPaid db.jobs j.id now }) := by
  unfold payJob
  rw [hlk]
  dsimp only
  rw [if_neg (by rw [hp]; exact Bool.false_ne_true), hcl, hco]
  dsimp only
  rw [if_neg (not_lt.mpr hle)]

theorem payJob_inv (db : DB) (now : ℚ) (caller jid : Nat) (r : PayResult)
    (db' : DB) (h : payJob db now caller jid = some (r, db')) :
    (db' = db ∧ r ≠ .Paid) ∨
    (r = .Paid ∧ ∃ j c client contractor,
      payLookup db caller jid = some (j, c) ∧ j.paid = false ∧
      findProfile db c.clientId = some client ∧
      findProfile db c.contractorId = some contractor ∧
      j.price ≤ client.balance ∧
      db' = { db with
        profiles := incrementBalance
          (incrementBalance db.profiles client.id (-j.price))
          contractor.id j.price,
        jobs := markJobPaid db.jobs j.id now }) := by
  unfold payJob at h
  rcases hlk : payLookup db caller jid with _ | ⟨j, c⟩ <;> rw [hlk] at h
  · simp only [Option.some.injEq, Prod.mk.injEq] at h
    exact Or.inl ⟨h.2.symm, by rw [← h.1]; exact fun hc => by cases hc⟩
  · dsimp only at h
    by_cases hp : j.paid = true
    · rw [if_pos hp] at h
      simp only [Option.some.injEq, Prod.mk.injEq] at h
      exact Or.inl ⟨h.2.symm, by rw [← h.1]; exact fun hc => by cases hc⟩
    · rw [if_neg hp] at h
      rcases hcl : findProfile db c.clientId with _ | client <;>
        rw [hcl] at h
      · cases h
      · dsimp only at h
        by_cases hlt : j.price > client.balance
        · rw [if_pos hlt] at h
          simp only [Option.some.injEq, Prod.mk.injEq] at h
          exact Or.inl ⟨h.2.symm, by rw [← h.1]; exact fun hc => by cases hc⟩
        · rw [if_neg hlt] at h
          rcases hco : findProfile db c.contractorId with _ | contractor <;>
            rw [hco] at h
          · cases h
          · simp only [Option.some.injEq, Prod.mk.injEq] at h
            exact Or.inr ⟨h.1.symm, j, c, client, contractor, hlk ▸ rfl,
              Bool.eq_false_iff.mpr hp, hcl, hco, not_lt.mp hlt, h.2.symm⟩

theorem payJob_conserves (db : DB) (now : ℚ) (caller jid : Nat)
    (r : PayResult) (db' : DB)
    (hnd : (db.profiles.map Profile.id).Nodup)
    (h : payJob db now caller jid = some (r, db')) :
    totalBalance db' = totalBalance db ∧
    db'.profiles.map Profile.id = db.profiles.map Profile.id := by
  rcases payJob_inv db now caller jid r db' h with ⟨rfl, -⟩ |
    ⟨-, j, c, client, contractor, hlk, hp, hcl, hco, hle, rfl⟩
  · exact ⟨rfl, rfl⟩
  · have hclmem : client ∈ db.profiles := List.mem_of_find?_eq_some hcl
    have hcomem : contractor ∈ db.profiles := List.mem_of_find?_eq_some hco
    have hids1 : (incrementBalance db.profiles client.id
        (-j.price)).map Profile.id = db.profiles.map Profile.id :=
      incrementBalance_ids _ _ _
    have hnd1 : ((incrementBalance db.profiles client.id
        (-j.price)).map Profile.id).Nodup := by rw [hids1]; exact hnd
    obtain ⟨q, hq, hqid⟩ := incrementBalance_mem_id db.profiles client.id
      (-j.price) contractor.id contractor hcomem rfl
    have hsum2 := incrementBalance_sum contractor.id j.price q hqid
      (incrementBalance db.profiles client.id (-j.price)) hnd1 hq
    have hsum1 := incrementBalance_sum client.id (-j.price) client rfl
      db.profiles hnd hclmem
    constructor
    · show ((incrementBalance (incrementBalance db.profiles client.id
        (-j.price)) contractor.id j.price).map Profile.balance).sum
        = (db.profiles.map Profile.balance).sum
      rw [hsum2, hsum1]
      ring
    · show (incrementBalance (incrementBalance db.profiles client.id
        (-j.price)) contractor.id j.price).map Profile.id
        = db.profiles.map Profile.id
      rw [incrementBalance_ids, hids1]

theorem payStep_conserves (db : DB) (st : ℚ × Nat × Nat)
    (hnd : (db.profiles.map Profile.id).Nodup) :
    totalBalance (payStep db st) = totalBalance db ∧
    (payStep db st).profiles.map Profile.id = db.profiles.map Profile.id := by
  unfold payStep
  rcases hpj : payJob db st.1 st.2.1 st.2.2 with _ | ⟨r, db2⟩
  · exact ⟨rfl, rfl⟩
  · exact payJob_conserves db st.1 st.2.1 st.2.2 r db2 hnd hpj

theorem findSome?_comm {α β : Type _} (g : α → α) (F : α → Option β)
    (h : β → β) (hcomm : ∀ x, F (g x) = (F x).map h) (l : List α) :
    (l.map g).findSome? F = (l.findSome? F).map h := by
  rw [List.findSome?_map]
  have heq : (F ∘ g) = fun x => (F x).map h := funext hcomm
  rw [heq, findSome?_map_comp]

theorem payContractMatches_update (caller : Nat) (x : Job) (now : ℚ) :
    payContractMatches caller
        { x with paid := true, paymentDate := some now }
      = payContractMatches caller x := by
  funext c
  rfl

theorem payLookup_after_mark (db : DB) (caller jid : Nat) (j : Job)
    (c : Contract) (P : List Profile) (now : ℚ)
    (hlk : payLookup db caller jid = some (j, c)) :
    payLookup { db with profiles := P,
                        jobs := markJobPaid db.jobs j.id now } caller jid
      = some ({ j with paid := true, paymentDate := some now }, c) := by
  have hjid : j.id = jid := (payLookup_some db caller jid j c hlk).1
  unfold payLookup at hlk ⊢
  dsimp only
  unfold markJobPaid
  rw [findSome?_comm
    (fun x => if x.id == j.id then
      { x with paid := true, paymentDate := some now } else x)
    (fun x : Job => if x.id == jid then
      (db.contracts.find? (payContractMatches caller x)).map
        (fun c => (x, c))
      else none)
    (fun pr : Job × Contract =>
      (if pr.1.id == j.id then
        { pr.1 with paid := true, paymentDate := some now } else pr.1,
       pr.2))
    ?_ db.jobs]
  · rw [hlk]
    dsimp only [Option.map_some']
    rw [if_pos (beq_self_eq_true j.id)]
  · intro x
    dsimp only
    by_cases hx : (x.id == j.id) = true
    · rw [if_pos hx]
      dsimp only
      rw [payContractMatches_update caller x now]
      by_cases hxid : (x.id == jid) = true
      · rw [if_pos hxid, if_pos hxid, Option.map_map]
        have hfun : ((fun pr : Job × Contract =>
            (if pr.1.id == j.id then
              { pr.1 with paid := true, paymentDate := some now }
             else pr.1, pr.2)) ∘ (fun c' => (x, c')))
            = fun c' : Contract =>
              ({ x with paid := true, paymentDate := some now }, c') := by
          funext c'
          simp only [Function.comp]
          rw [if_pos hx]
        rw [hfun]
      · rw [if_neg hxid, if_neg hxid]
        rfl
    · rw [if_neg hx]
      by_cases hxid : (x.id == jid) = true
      · rw [if_pos hxid, Option.map_map]
        have hfun : ((fun pr : Job × Contract =>
            (if pr.1.id == j.id then
              { pr.1 with paid := true, paymentDate := some now }
             else pr.1, pr.2)) ∘ (fun c' => (x, c')))
            = fun c' : Contract => (x, c') := by
          funext c'
          simp only [Function.comp]
          rw [if_neg hx]
        rw [hfun]
      · rw [if_neg hxid]
        rfl

theorem payJob_retry (db : DB) (now now2 : ℚ) (caller jid : Nat) (db1 : DB)
    (h : payJob db now caller jid = some (.Paid, db1)) :
    payJob db1 now2 caller jid = some (.AlreadyPaid, db1) := by
  rcases payJob_inv db now caller jid .Paid db1 h with ⟨-, hne⟩ |
    ⟨-, j, c, client, contractor, hlk, hp, hcl, hco, hle, rfl⟩
  · exact absurd rfl hne
  · have hlk2 := payLookup_after_mark db caller jid j c
      (incrementBalance (incrementBalance db.profiles client.id (-j.price))
        contractor.id j.price) now hlk
    exact payJob_alreadyPaid _ now2 caller jid _ c hlk2 rfl

theorem foldl_payStep_conserves (steps : List (ℚ × Nat × Nat)) :
    ∀ db : DB, (db.profiles.map Profile.id).Nodup →
      totalBalance (List.foldl payStep db steps) = totalBalance db := by
  induction steps with
  | nil => intro db _; rfl
  | cons s ss ih =>
    intro db hnd
    rw [List.foldl_cons]
    obtain ⟨hbal, hids⟩ := payStep_conserves db s hnd
    rw [ih (payStep db s) (by rw [hids]; exact hnd), hbal]

theorem mem_windowJobs (db : DB) (s e : ℚ) (j : Job) :
    j ∈ windowJobs db s e ↔
      j ∈ db.jobs ∧ ∃ d, j.paymentDate = some d ∧ s < d ∧ d < e := by
  unfold windowJobs
  rw [List.mem_filter]
  constructor
  · rintro ⟨hj, hw⟩
    refine ⟨hj, ?_⟩
    unfold jobInWindow at hw
    rcases hpd : j.paymentDate with _ | d <;> rw [hpd] at hw
    · cases hw
    · exact ⟨d, rfl, of_decide_eq_true hw⟩
  · rintro ⟨hj, d, hpd, h1, h2⟩
    refine ⟨hj, ?_⟩
    unfold jobInWindow
    rw [hpd]
    exact decide_eq_true ⟨h1, h2⟩

theorem setPaid_windowJobs (db : DB) (s e : ℚ) (f : Job → Bool) :
    windowJobs (setPaidFlags db f) s e
      = (windowJobs db s e).map (fun j => { j with paid := f j }) := by
  unfold windowJobs setPaidFlags
  dsimp only
  rw [List.filter_map]
  have hpred : (jobInWindow s e ∘ fun j : Job => { j with paid := f j })
      = jobInWindow s e := by
    funext j
    rfl
  rw [hpred]

theorem setPaid_professionKeys (db : DB) (s e : ℚ) (f : Job → Bool) :
    professionKeys (setPaidFlags db f) s e = professionKeys db s e := by
  unfold professionKeys
  rw [setPaid_windowJobs, List.map_map]
  have hkey : (professionKey (setPaidFlags db f) ∘
      fun j : Job => { j with paid := f j }) = professionKey db := by
    funext j
    rfl
  rw [hkey]

theorem setPaid_professionTotal (db : DB) (s e : ℚ) (f : Job → Bool)
    (k : Option String) :
    professionTotal (setPaidFlags db f) s e k
      = professionTotal db s e k := by
  unfold professionTotal
  rw [setPaid_windowJobs, List.filter_map]
  have hpred : ((fun j => professionKey (setPaidFlags db f) j == k) ∘
      fun j : Job => { j with paid := f j })
      = fun j => professionKey db j == k := by
    funext j
    rfl
  rw [hpred, List.map_map]
  have hprice : (Job.price ∘ fun j : Job => { j with paid := f j })
      = Job.price := by
    funext j
    rfl
  rw [hprice]

theorem setPaid_clientKeys (db : DB) (s e : ℚ) (f : Job → Bool) :
    clientKeys (setPaidFlags db f) s e = clientKeys db s e := by
  unfold clientKeys
  rw [setPaid_windowJobs, List.map_map]
  have hkey : (clientKey (setPaidFlags db f) ∘
      fun j : Job => { j with paid := f j }) = clientKey db := by
    funext j
    rfl
  rw [hkey]

theorem setPaid_clientTotal (db : DB) (s e : ℚ) (f : Job → Bool)
    (k : Option Nat) :
    clientTotal (setPaidFlags db f) s e k = clientTotal db s e k := by
  unfold clientTotal
  rw [setPaid_windowJobs, List.filter_map]
  have hpred : ((fun j => clientKey (setPaidFlags db f) j == k) ∘
      fun j : Job => { j with paid := f j })
      = fun j => clientKey db j == k := by
    funext j
    rfl
  rw [hpred, List.map_map]
  have hprice : (Job.price ∘ fun j : Job => { j with paid := f j })
      = Job.price := by
    funext j
    rfl
  rw [hprice]

theorem setPaid_clientName (db : DB) (f : Job → Bool) :
    clientName (setPaidFlags db f) = clientName db := by
  funext k
  rfl

/-! Claim theorems. -/

/-- C1: a successful payment (payJob returning Paid) debits the client by
exactly the job's price, credits the contractor by exactly the price, sets
the job's paid flag and its paymentDate, and leaves the sum of all profile
balances unchanged — as it remains under any further sequence of payment
requests. -/
theorem C1_payment_transfer_and_conservation (db : DB) (now : ℚ)
    (caller jid : Nat) (db' : DB) (j : Job) (c : Contract)
    (client contractor : Profile)
    (hnd : (db.profiles.map Profile.id).Nodup)
    (hlk : payLookup db caller jid = some (j, c))
    (hcl : findProfile db c.clientId = some client)
    (hco : findProfile db c.contractorId = some contractor)
    (hne : c.clientId ≠ c.contractorId)
    (hpay : payJob db now caller jid = some (.Paid, db')) :
    findProfile db' c.clientId
      = some { client with balance := client.balance - j.price } ∧
    findProfile db' c.contractorId
      = some { contractor with balance := contractor.balance + j.price } ∧
    (∀ j' ∈ db'.jobs, j'.id = j.id →
      j'.paid = true ∧ j'.paymentDate = some now) ∧
    totalBalance db' = totalBalance db ∧
    ∀ steps : List (ℚ × Nat × Nat),
      totalBalance (List.foldl payStep db' steps) = totalBalance db := by
  have hcons := payJob_conserves db now caller jid .Paid db' hnd hpay
  rcases payJob_inv db now caller jid .Paid db' hpay with ⟨-, hne'⟩ |
    ⟨-, j0, c0, cl0, co0, hlk0, hp0, hcl0, hco0, hle0, hdb'⟩
  · exact absurd rfl hne'
  · have hjc := hlk0.symm.trans hlk
    simp only [Option.some.injEq, Prod.mk.injEq] at hjc
    obtain ⟨rfl, rfl⟩ := hjc
    have hcle := hcl.symm.trans hcl0
    simp only [Option.some.injEq] at hcle
    subst hcle
    have hcoe := hco.symm.trans hco0
    simp only [Option.some.injEq] at hcoe
    subst hcoe
    have hclid : client.id = c0.clientId :=
      findProfile_some_id db c0.clientId client hcl0
    have hcoid : contractor.id = c0.contractorId :=
      findProfile_some_id db c0.contractorId contractor hco0
    have hneq : ¬(client.id == contractor.id) = true := by
      intro hb
      exact hne (by rw [← hclid, ← hcoid]; exact beq_iff_eq.mp hb)
    have hneq2 : ¬(contractor.id == client.id) = true := by
      intro hb
      exact hne (by rw [← hclid, ← hcoid]; exact (beq_iff_eq.mp hb).symm)
    subst hdb'
    refine ⟨?_, ?_, ?_, hcons.1, ?_⟩
    · show (incrementBalance (incrementBalance db.profiles client.id
        (-j0.price)) contractor.id j0.price).find?
          (fun p => p.id == c0.clientId)
        = some { client with balance := client.balance - j0.price }
      rw [find?_incrementBalance, find?_incrementBalance]
      rw [show db.profiles.find? (fun p => p.id == c0.clientId)
        = some client from hcl0]
      dsimp only [Option.map_some']
      rw [if_pos (beq_self_eq_true client.id)]
      dsimp only
      rw [if_neg hneq, sub_eq_add_neg]
    · show (incrementBalance (incrementBalance db.profiles client.id
        (-j0.price)) contractor.id j0.price).find?
          (fun p => p.id == c0.contractorId)
        = some { contractor with balance := contractor.balance + j0.price }
      rw [find?_incrementBalance, find?_incrementBalance]
      rw [show db.profiles.find? (fun p => p.id == c0.contractorId)
        = some contractor from hco0]
      dsimp only [Option.map_some']
      rw [if_neg hneq2]
      rw [if_pos (beq_self_eq_true contractor.id)]
    · exact markJobPaid_spec db.jobs j0.id now
    · intro steps
      rw [foldl_payStep_conserves steps _
        (by rw [hcons.2]; exact hnd), hcons.1]

/-- Witness for C1 at a concrete database: paying the 40-priced job of
client 1 leaves the client at 60, the contractor at 50, the job paid at
time 99, and the total balance conserved, also after a further retried
request. -/
theorem C1_witness :
    findProfile dbC1x 1 = some ⟨1, "Alice", "client", 60⟩ ∧
    findProfile dbC1x 2 = some ⟨2, "Bob", "programmer", 50⟩ ∧
    (∀ j' ∈ dbC1x.jobs, j'.id = 1 →
      j'.paid = true ∧ j'.paymentDate = some 99) ∧
    totalBalance dbC1x = totalBalance dbC1 ∧
    totalBalance (List.foldl payStep dbC1x [(100, 1, 1)])
      = totalBalance dbC1 := by
  have h := C1_payment_transfer_and_conservation dbC1 99 1 1 dbC1x
    ⟨1, 1, 40, false, none⟩ ⟨1, 1, 2, "in_progress"⟩
    ⟨1, "Alice", "client", 100⟩ ⟨2, "Bob", "programmer", 10⟩
    (by with_unfolding_all decide) (by with_unfolding_all decide)
    (by with_unfolding_all decide) (by with_unfolding_all decide)
    (by with_unfolding_all decide) (by with_unfolding_all decide)
  refine ⟨?_, ?_, h.2.2.1, h.2.2.2.1, h.2.2.2.2 [(100, 1, 1)]⟩
  · rw [show (60 : ℚ) = 100 - 40 by norm_num]
    exact h.1
  · rw [show (50 : ℚ) = 10 + 40 by norm_num]
    exact h.2.1

/-- C3: when a payment succeeds (Paid), repeating the same request against
the resulting state yields AlreadyPaid and performs no mutation: the
returned state is the unchanged input state. -/
theorem C3_pay_then_retry_idempotent (db : DB) (now now2 : ℚ)
    (caller jid : Nat) (db1 : DB)
    (h : payJob db now caller jid = some (.Paid, db1)) :
    payJob db1 now2 caller jid = some (.AlreadyPaid, db1) :=
  payJob_retry db now now2 caller jid db1 h

/-- Witness for C3: after paying the job of `dbC3`, a retry returns
AlreadyPaid with the state unchanged. -/
theorem C3_witness :
    payJob dbC3x 100 1 1 = some (.AlreadyPaid, dbC3x) :=
  C3_pay_then_retry_idempotent dbC3 99 100 1 1 dbC3x
    (by with_unfolding_all decide)

/-- C4: for an existing, authorized, unpaid job, payJob returns
InsufficientFunds with the database unchanged exactly when the job's price
exceeds the client's balance; when the price equals the balance the payment
succeeds and the client's balance lands at exactly 0. -/
theorem C4_insufficient_funds_boundary (db : DB) (now : ℚ)
    (caller jid : Nat) (j : Job) (c : Contract)
    (client contractor : Profile)
    (hlk : payLookup db caller jid = some (j, c))
    (hp : j.paid = false)
    (hcl : findProfile db c.clientId = some client)
    (hco : findProfile db c.contractorId = some contractor)
    (hne : c.clientId ≠ c.contractorId) :
    (payJob db now caller jid = some (.InsufficientFunds, db)
      ↔ j.price > client.balance) ∧
    (j.price = client.balance →
      ∃ db', payJob db now caller jid = some (.Paid, db') ∧
        findProfile db' c.clientId
          = some { client with balance := 0 }) := by
  have hclid : client.id = c.clientId :=
    findProfile_some_id db c.clientId client hcl
  have hcoid : contractor.id = c.contractorId :=
    findProfile_some_id db c.contractorId contractor hco
  have hneq : ¬(client.id == contractor.id) = true := by
    intro hb
    exact hne (by rw [← hclid, ← hcoid]; exact beq_iff_eq.mp hb)
  constructor
  · constructor
    · intro h
      by_contra hnot
      have hpaid := payJob_paid_eq db now caller jid j c client contractor
        hlk hp hcl hco (not_lt.mp hnot)
      rw [hpaid] at h
      simp at h
    · intro hgt
      unfold payJob
      rw [hlk]
      dsimp only
      rw [if_neg (by rw [hp]; exact Bool.false_ne_true), hcl]
      dsimp only
      rw [if_pos hgt]
  · intro heq
    refine ⟨_, payJob_paid_eq db now caller jid j c client contractor
      hlk hp hcl hco (le_of_eq heq), ?_⟩
    show (incrementBalance (incrementBalance db.profiles client.id
      (-j.price)) contractor.id j.price).find?
        (fun p => p.id == c.clientId)
      = some { client with balance := 0 }
    rw [find?_incrementBalance, find?_incrementBalance]
    rw [show db.profiles.find? (fun p => p.id == c.clientId)
      = some client from hcl]
    dsimp only [Option.map_some']
    rw [if_pos (beq_self_eq_true client.id)]
    dsimp only
    rw [if_neg hneq, heq, show client.balance + -client.balance = 0 by ring]

/-- Witness for C4: in `dbC4` the job's price (70) equals the client's
balance, so the payment is not rejected and the balance lands at exactly
0. -/
theorem C4_witness :
    (payJob dbC4 50 1 1 = some (.InsufficientFunds, dbC4)
      ↔ (70 : ℚ) > 70) ∧
    (∃ db', payJob dbC4 50 1 1 = some (.Paid, db') ∧
      findProfile db' 1 = some ⟨1, "Eve", "client", 0⟩) := by
  have h := C4_insufficient_funds_boundary dbC4 50 1 1
    ⟨1, 1, 70, false, none⟩ ⟨1, 1, 2, "in_progress"⟩
    ⟨1, "Eve", "client", 70⟩ ⟨2, "Fay", "tiler", 0⟩
    (by with_unfolding_all decide) rfl
    (by with_unfolding_all decide) (by with_unfolding_all decide)
    (by with_unfolding_all decide)
  exact ⟨h.1, h.2 rfl⟩

/-- C5 counterexample: in `dbC5` job 1 exists, its contract is terminated,
and the caller's balance amply covers the price, yet payJob answers
NotFound — the same 404 response a nonexistent job (id 999) gets — rather
than a distinct Forbidden outcome. -/
theorem C5_counterexample :
    dbC5.jobs = [⟨1, 1, 10, false, none⟩] ∧
    dbC5.contracts = [⟨1, 1, 2, "terminated"⟩] ∧
    findProfile dbC5 1 = some ⟨1, "Gus", "client", 1000⟩ ∧
    (10 : ℚ) ≤ 1000 ∧
    payJob dbC5 0 1 1 = some (.NotFound, dbC5) ∧
    payJob dbC5 0 1 999 = some (.NotFound, dbC5) ∧
    payHttpStatus .NotFound = 404 := by
  refine ⟨rfl, rfl, by decide, by norm_num, by decide, by decide, rfl⟩

/-- C5 amended: a payment attempt on a job whose contract is terminated or
not owned by the caller answers NotFound (HTTP 404) — indistinguishable
from a missing job — and performs no mutation. -/
theorem C5_unauthorized_answers_notFound (db : DB) (now : ℚ)
    (caller jid : Nat)
    (h : ∀ j ∈ db.jobs, j.id = jid → ∀ c ∈ db.contracts,
      c.id = j.contractId →
        (c.status = "terminated" ∨ c.clientId ≠ caller)) :
    payJob db now caller jid = some (.NotFound, db) ∧
    payHttpStatus .NotFound = 404 := by
  refine ⟨?_, rfl⟩
  apply payJob_notFound
  unfold payLookup
  rw [List.findSome?_eq_none_iff]
  intro j hj
  by_cases hid : (j.id == jid) = true
  · rw [if_pos hid]
    suffices hnone : db.contracts.find? (payContractMatches caller j)
        = none by rw [hnone]; rfl
    rw [List.find?_eq_none]
    intro c hc hmatch
    unfold payContractMatches at hmatch
    simp only [Bool.and_eq_true, beq_iff_eq, Bool.not_eq_true',
      beq_eq_false_iff_ne, ne_eq] at hmatch
    obtain ⟨⟨hcid, hst⟩, hccl⟩ := hmatch
    rcases h j hj (beq_iff_eq.mp hid) c hc hcid with hterm | hnecl
    · exact hst hterm
    · exact hnecl hccl
  · rw [if_neg hid]

/-- Witness for the amended C5: paying the job under the terminated
contract of `dbC5` answers NotFound with no mutation. -/
theorem C5_witness :
    payJob dbC5 3 1 1 = some (.NotFound, dbC5) ∧
    payHttpStatus .NotFound = 404 :=
  C5_unauthorized_answers_notFound dbC5 3 1 1 (by decide)

/-- C10: Paid and AlreadyPaid are reported with the identical HTTP response
(status 200, empty body), so the retry of a successful payment is
indistinguishable at the interface from the call that performed the
transfer. -/
theorem C10_paid_and_alreadyPaid_same_response (db : DB) (now now2 : ℚ)
    (caller jid : Nat) (db1 : DB)
    (h : payJob db now caller jid = some (.Paid, db1)) :
    payHttpResponse .Paid = payHttpResponse .AlreadyPaid ∧
    payHttpResponse .Paid = (200, none) ∧
    (payJob db1 now2 caller jid).map (fun r => payHttpResponse r.1)
      = some (payHttpResponse .Paid) := by
  refine ⟨rfl, rfl, ?_⟩
  rw [payJob_retry db now now2 caller jid db1 h]
  rfl

/-- Witness for C10: the retried payment against `dbC10x` produces the same
(200, empty) response as the original successful payment. -/
theorem C10_witness :
    payHttpResponse .Paid = payHttpResponse .AlreadyPaid ∧
    payHttpResponse .Paid = (200, none) ∧
    (payJob dbC10x 8 1 1).map (fun r => payHttpResponse r.1)
      = some (payHttpResponse .Paid) :=
  C10_paid_and_alreadyPaid_same_response dbC10 7 8 1 1 dbC10x
    (by with_unfolding_all decide)

/-- C2: with the client's unpaid debt D as the deposit route computes it, a
positive deposit succeeds — landing the client's balance at exactly
balance + amount — iff amount ≤ 1.25·D, answers CapExceeded with the
database unchanged iff amount > 1.25·D, and with D = 0 every positive
amount is rejected. -/
theorem C2_deposit_cap (db : DB) (uid : Nat) (amount : ℚ)
    (client : Profile) (hc : findProfile db uid = some client)
    (hpos : 0 < amount) :
    (deposit db uid amount = (.Deposited, { db with
        profiles := incrementBalance db.profiles client.id amount })
      ↔ amount ≤ debtOf db client.id * (5 / 4)) ∧
    (deposit db uid amount = (.CapExceeded, db)
      ↔ amount > debtOf db client.id * (5 / 4)) ∧
    (amount ≤ debtOf db client.id * (5 / 4) →
      findProfile (deposit db uid amount).2 client.id
        = some { client with balance := client.balance + amount }) ∧
    (debtOf db client.id = 0 →
      deposit db uid amount = (.CapExceeded, db)) := by
  have hcid : client.id = uid := findProfile_some_id db uid client hc
  have hdep : deposit db uid amount
      = if amount > debtOf db client.id * (5 / 4) then (.CapExceeded, db)
        else (.Deposited, { db with
          profiles := incrementBalance db.profiles client.id amount }) := by
    unfold deposit
    rw [hc]
  by_cases hgt : amount > debtOf db client.id * (5 / 4)
  · rw [hdep, if_pos hgt]
    refine ⟨⟨fun h => ?_, fun hle => absurd hgt (not_lt.mpr hle)⟩,
      ⟨fun _ => hgt, fun _ => rfl⟩,
      fun hle => absurd hgt (not_lt.mpr hle), fun _ => rfl⟩
    simp at h
  · rw [hdep, if_neg hgt]
    have hle := not_lt.mp hgt
    refine ⟨⟨fun _ => hle, fun _ => rfl⟩,
      ⟨fun h => by simp at h, fun h => absurd h hgt⟩, fun _ => ?_, ?_⟩
    · show (incrementBalance db.profiles client.id amount).find?
        (fun p => p.id == client.id)
        = some { client with balance := client.balance + amount }
      have hc' : db.profiles.find? (fun p => p.id == client.id)
          = some client := by rw [hcid]; exact hc
      rw [find?_incrementBalance, hc']
      dsimp only [Option.map_some']
      rw [if_pos (beq_self_eq_true client.id)]
    · intro h0
      rw [h0] at hle
      norm_num at hle
      exact absurd hpos (not_lt.mpr hle)

/-- Witness for C2: against `dbC2` (one unpaid job of price 100, so
debt 100 and cap 125), deposit 120 is accepted and lands the balance at
220, while deposit 130 answers CapExceeded with no mutation. -/
theorem C2_witness :
    (deposit dbC2 1 120).1 = .Deposited ∧
    findProfile (deposit dbC2 1 120).2 1
      = some ⟨1, "Ann", "client", 220⟩ ∧
    deposit dbC2 1 130 = (.CapExceeded, dbC2) := by
  have h120 := C2_deposit_cap dbC2 1 120 ⟨1, "Ann", "client", 100⟩
    (by decide) (by norm_num)
  have h130 := C2_deposit_cap dbC2 1 130 ⟨1, "Ann", "client", 100⟩
    (by decide) (by norm_num)
  have hle : (120 : ℚ) ≤ debtOf dbC2 1 * (5 / 4) := by
    with_unfolding_all decide
  refine ⟨?_, ?_, h130.2.1.mpr (by with_unfolding_all decide)⟩
  · rw [h120.1.mpr hle]
  · rw [show (220 : ℚ) = 100 + 120 by norm_num]
    exact h120.2.2.1 hle

/-- C6 counterexample: in `dbC6` job 1 is unpaid, its contract involves
profile 1 and has status "new" — not terminated, hence active per the
claim — yet the unpaid-jobs query returns the empty list. -/
theorem C6_counterexample :
    dbC6.jobs = [⟨1, 1, 50, false, none⟩] ∧
    dbC6.contracts = [⟨1, 1, 2, "new"⟩] ∧
    ("new" : String) ≠ "terminated" ∧
    findUnpaidJobsForProfile dbC6 1 = [] := by
  refine ⟨rfl, rfl, by decide, by decide⟩

/-- C6 amended: the unpaid-jobs query returns exactly the jobs whose paid
flag is false and whose contract involves the profile and has status
`"in_progress"` — jobs under contracts with status `"new"` are excluded. -/
theorem C6_unpaid_jobs_membership (db : DB) (pid : Nat) (j : Job) :
    j ∈ findUnpaidJobsForProfile db pid ↔
      j ∈ db.jobs ∧ j.paid = false ∧ ∃ c ∈ db.contracts,
        c.id = j.contractId ∧ c.status = "in_progress" ∧
        (c.contractorId = pid ∨ c.clientId = pid) := by
  unfold findUnpaidJobsForProfile
  rw [List.mem_filter]
  simp only [Bool.and_eq_true, List.any_eq_true, unpaidContractMatches,
    Bool.not_eq_true', Bool.or_eq_true, beq_iff_eq]
  constructor
  · rintro ⟨hj, hpaid, c, hc, ⟨hcid, hst⟩, hside⟩
    exact ⟨hj, hpaid, c, hc, hcid, hst, hside⟩
  · rintro ⟨hj, hpaid, c, hc, hcid, hst, hside⟩
    exact ⟨hj, hpaid, c, hc, ⟨hcid, hst⟩, hside⟩

/-- C8 counterexample: the single job of `dbC8` is paid exactly at time 5,
yet with window start 5 both admin aggregations exclude it (empty results),
although they include it once the window starts earlier — so a job paid
exactly at `start` is not included. -/
theorem C8_counterexample :
    dbC8.jobs = [⟨1, 1, 40, true, some 5⟩] ∧
    bestProfession dbC8 5 10 = none ∧
    bestClients dbC8 5 10 none = [] ∧
    bestProfession dbC8 4 10 = some (some "programmer") := by
  refine ⟨rfl, by with_unfolding_all decide, by with_unfolding_all decide,
    by with_unfolding_all decide⟩

/-- C8 amended: the record set both admin aggregations range over contains
a job iff its paymentDate lies strictly inside the open interval
(start, end); a job paid exactly at start is excluded, as is one paid
exactly at end. -/
theorem C8_window_open_interval (db : DB) (s e : ℚ) (j : Job) :
    (j ∈ windowJobs db s e ↔
      j ∈ db.jobs ∧ ∃ d, j.paymentDate = some d ∧ s < d ∧ d < e) ∧
    (j.paymentDate = some s → j ∉ windowJobs db s e) ∧
    (j.paymentDate = some e → j ∉ windowJobs db s e) := by
  refine ⟨mem_windowJobs db s e j, ?_, ?_⟩
  · intro hpd hmem
    obtain ⟨-, d, hpd', h1, -⟩ := (mem_windowJobs db s e j).mp hmem
    rw [hpd] at hpd'
    obtain rfl : s = d := Option.some.inj hpd'
    exact lt_irrefl s h1
  · intro hpd hmem
    obtain ⟨-, d, hpd', -, h2⟩ := (mem_windowJobs db s e j).mp hmem
    rw [hpd] at hpd'
    obtain rfl : e = d := Option.some.inj hpd'
    exact lt_irrefl e h2

/-- Witness for the amended C8: the job of `dbC8` paid at time 5 is
excluded from the window starting at 5, and a job paid at time 10 is
excluded from the window ending at 10. -/
theorem C8_witness :
    (⟨1, 1, 40, true, some 5⟩ : Job) ∉ windowJobs dbC8 5 10 ∧
    (⟨1, 1, 40, true, some 10⟩ : Job) ∉ windowJobs dbC8 5 10 :=
  ⟨(C8_window_open_interval dbC8 5 10 ⟨1, 1, 40, true, some 5⟩).2.1 rfl,
   (C8_window_open_interval dbC8 5 10 ⟨1, 1, 40, true, some 10⟩).2.2 rfl⟩

/-- C9: the two admin aggregations select and value jobs independently of
the paid flag: rewriting every job's paid flag arbitrarily changes neither
the selected record set (beyond the rewritten flag itself) nor the output
of bestProfession or bestClients, so a job with a non-null paymentDate is
counted even when its paid flag is false. -/
theorem C9_aggregations_ignore_paid_flag (db : DB) (s e : ℚ)
    (lim : Option Nat) (f : Job → Bool) :
    windowJobs (setPaidFlags db f) s e
      = (windowJobs db s e).map (fun j => { j with paid := f j }) ∧
    bestProfession (setPaidFlags db f) s e = bestProfession db s e ∧
    bestClients (setPaidFlags db f) s e lim = bestClients db s e lim := by
  refine ⟨setPaid_windowJobs db s e f, ?_, ?_⟩
  · unfold bestProfession
    rw [setPaid_professionKeys]
    have htot : professionTotal (setPaidFlags db f) s e
        = professionTotal db s e :=
      funext (setPaid_professionTotal db s e f)
    rw [htot]
  · unfold bestClients
    rw [setPaid_clientKeys]
    have htot : clientTotal (setPaidFlags db f) s e = clientTotal db s e :=
      funext (setPaid_clientTotal db s e f)
    rw [htot, setPaid_clientName]

/-- C7: under the data-model invariant that paymentDate is non-null iff
paid, the profession totals the route computes agree with the
specification's paid-jobs grouping, the route answers not-found exactly
when no paid job falls in the window, and any returned group key is one of
the present keys and carries the maximum summed price. -/
theorem C7_best_profession_is_max (db : DB) (s e : ℚ)
    (hInv : ∀ j ∈ db.jobs, (j.paymentDate ≠ none ↔ j.paid = true)) :
    (∀ k, professionTotal db s e k = specPaidProfessionTotal db s e k) ∧
    (bestProfession db s e = none ↔
      ∀ j ∈ db.jobs, ¬(j.paid = true ∧ jobInWindow s e j = true)) ∧
    (∀ k, bestProfession db s e = some k →
      k ∈ professionKeys db s e ∧
      ∀ k' ∈ professionKeys db s e,
        specPaidProfessionTotal db s e k'
          ≤ specPaidProfessionTotal db s e k) := by
  have hpdne : ∀ j, jobInWindow s e j = true → j.paymentDate ≠ none := by
    intro j hw hnone
    unfold jobInWindow at hw
    rw [hnone] at hw
    cases hw
  have hA : ∀ k,
      professionTotal db s e k = specPaidProfessionTotal db s e k := by
    intro k
    unfold professionTotal specPaidProfessionTotal windowJobs
    rw [List.filter_filter]
    have hfil : List.filter
        (fun j => (professionKey db j == k) && jobInWindow s e j) db.jobs
        = List.filter (fun j =>
            j.paid && jobInWindow s e j && (professionKey db j == k))
          db.jobs := by
      apply List.filter_congr
      intro j hj
      by_cases hw : jobInWindow s e j = true
      · rw [hw, (hInv j hj).mp (hpdne j hw)]
        simp
      · rw [Bool.eq_false_iff.mpr hw]
        simp
    rw [hfil]
  refine ⟨hA, ?_, ?_⟩
  · unfold bestProfession
    rw [List.argmax_eq_none]
    unfold professionKeys
    rw [List.dedup_eq_nil, List.map_eq_nil_iff]
    unfold windowJobs
    rw [List.filter_eq_nil_iff]
    constructor
    · intro h j hj hand
      exact (h j hj) hand.2
    · intro h j hj hw
      exact (h j hj) ⟨(hInv j hj).mp (hpdne j hw), hw⟩
  · intro k hk
    have hkmem : k ∈ professionKeys db s e :=
      List.argmax_mem (Option.mem_def.mpr hk)
    refine ⟨hkmem, fun k' hk' => ?_⟩
    have hnl := List.not_lt_of_mem_argmax hk' (Option.mem_def.mpr hk)
    rw [← hA k, ← hA k']
    exact not_lt.mp hnl

/-- Witness for C7: in `dbC7` (programmer earned 300, designer 250 inside
the window) the route returns the programmer group, and its summed price
is maximal among the present groups. -/
theorem C7_witness :
    bestProfession dbC7 0 100 = some (some "programmer") ∧
    ∀ k' ∈ professionKeys dbC7 0 100,
      specPaidProfessionTotal dbC7 0 100 k'
        ≤ specPaidProfessionTotal dbC7 0 100 (some "programmer") := by
  have h := C7_best_profession_is_max dbC7 0 100 (by decide)
  have hbp : bestProfession dbC7 0 100 = some (some "programmer") := by
    with_unfolding_all decide
  exact ⟨hbp, (h.2.2 (some "programmer") hbp).2⟩

end DeelTask
